import Mathlib

set_option maxHeartbeats 1000000

/-!
Shallow embedding of the deepclean core (cleaner.rs, deps.rs, utils.rs).

External effects (filesystem queries, subprocess invocations) are modelled
by environment records whose fields record the result each external call
would return, plus an explicit effect trace listing the mutating external
calls the code performs.  Rust `Result` is modelled by `Except String`,
`u64` by `Nat` (all arithmetic in the source is non-overflowing:
`saturating_sub` is Nat subtraction), and Rust strings by `String` or
`List Char` (byte indices in the source only ever cut at ASCII delimiter
characters found by search, so char-level slicing coincides).
-/

/-- Backtick character (written via its code point). -/
def btChar : Char := Char.ofNat 96

/- ------------------------------------------------------------------ -/
/- Artifact Cleaner (src/cleaner.rs)                                   -/
/- ------------------------------------------------------------------ -/

/-- Mirrors `CleanResult` from cleaner.rs (`freed_bytes: u64` as `Nat`). -/
structure CleanResult where
  path : String
  success : Bool
  freed_bytes : Nat
  error : Option String
deriving Repr, DecidableEq

/-- Environment for one `clean_project` call: the results the external
world would give to each filesystem query / subprocess launch the code
performs, in program order.  `measureBefore`/`measureAfter` are the
`get_directory_size` results (`none` = traversal error, absorbed by
`unwrap_or(0)` in the source); `cargoClean` is the `cargo clean`
invocation (`none` = could not be launched, `some b` = exited with
success flag `b`); `removeDirOk` is whether `remove_dir_all` succeeds. -/
structure CleanEnv where
  path : String
  targetExists : Bool
  measureBefore : Option Nat
  cargoClean : Option Bool
  targetExistsAfter : Bool
  measureAfter : Option Nat
  targetExistsFallback : Bool
  removeDirOk : Bool

/-- Mutating external calls `clean_project` can perform. -/
inductive CleanEffect where
  | runCargoClean : CleanEffect
  | removeDirAll : CleanEffect
deriving Repr, DecidableEq

/-- The `freed_bytes` computation at the top of `clean_project`:
`if target_dir.exists() { get_directory_size(..).unwrap_or(0) } else { 0 }`. -/
def measuredTargetSize (env : CleanEnv) : Nat :=
  if env.targetExists then env.measureBefore.getD 0 else 0

/-- The `after_size` computation in the successful-`cargo clean` arm. -/
def measuredTargetSizeAfter (env : CleanEnv) : Nat :=
  if env.targetExistsAfter then env.measureAfter.getD 0 else 0

/-- Embedding of `clean_project` (cleaner.rs lines 15-75).  Returns the
Rust `Result<CleanResult>` together with the trace of mutating external
calls made. -/
def clean_project (env : CleanEnv) (dry_run : Bool) :
    Except String CleanResult × List CleanEffect :=
  let freed_bytes := measuredTargetSize env
  if dry_run then
    (Except.ok ⟨env.path, true, freed_bytes, none⟩, [])
  else
    match env.cargoClean with
    | some true =>
      let after_size := measuredTargetSizeAfter env
      (Except.ok ⟨env.path, true, freed_bytes - after_size, none⟩,
        [CleanEffect.runCargoClean])
    | _ =>
      if env.targetExistsFallback then
        if env.removeDirOk then
          (Except.ok ⟨env.path, true, freed_bytes, none⟩,
            [CleanEffect.runCargoClean, CleanEffect.removeDirAll])
        else
          (Except.error ("Failed to remove target directory: " ++ env.path),
            [CleanEffect.runCargoClean, CleanEffect.removeDirAll])
      else
        (Except.ok ⟨env.path, true, 0, none⟩, [CleanEffect.runCargoClean])

/- ------------------------------------------------------------------ -/
/- Size formatting (src/utils.rs, format_bytes)                        -/
/- ------------------------------------------------------------------ -/

/-- `UNITS[idx]` from `format_bytes`. -/
def unitsName : Nat → String
  | 0 => "B"
  | 1 => "KB"
  | 2 => "MB"
  | 3 => "GB"
  | _ => "TB"

/-- Number of times the `while size >= 1024.0 && unit_idx < UNITS.len()-1`
loop in `format_bytes` runs.  All the f64 operations involved are exact
(divisions by 1024 only scale the exponent), so the loop count is the
largest `k ≤ 4` with `1024^k ≤ bytes`. -/
def unitIdx (b : Nat) : Nat :=
  if b < 1024 then 0
  else if b < 1024 * 1024 then 1
  else if b < 1024 * 1024 * 1024 then 2
  else if b < 1024 * 1024 * 1024 * 1024 then 3
  else 4

/-- Round `num / den` to the nearest integer, ties to even — the rounding
Rust's `{:.2}` float formatting applies (on the scaled-by-100 value). -/
def roundHalfEven (num den : Nat) : Nat :=
  let q := num / den
  let r := num % den
  if 2 * r < den then q
  else if den < 2 * r then q + 1
  else if q % 2 = 0 then q else q + 1

/-- Render a count of hundredths as a 2-decimal string, as `{:.2}` does. -/
def twoDecString (m : Nat) : String :=
  toString (m / 100) ++ "." ++ (if m % 100 < 10 then "0" else "") ++ toString (m % 100)

/-- Embedding of `format_bytes` (utils.rs lines 6-21).  For
`bytes < 2^53` every f64 step in the source is exact, so the rendered
mantissa is the exact rational `bytes / 1024^idx` rounded to 2 decimals
(ties to even, as Rust formatting rounds). -/
def format_bytes (b : Nat) : String :=
  if unitIdx b = 0 then toString b ++ " B"
  else twoDecString (roundHalfEven (b * 100) (1024 ^ unitIdx b)) ++ " " ++ unitsName (unitIdx b)

/- ------------------------------------------------------------------ -/
/- Char-list string primitives used by the parsers                     -/
/- ------------------------------------------------------------------ -/

/-- `needle.isPrefixOf hay` on char lists, executable. -/
def hasPrefixChars : List Char → List Char → Bool
  | [], _ => true
  | _ :: _, [] => false
  | a :: as, b :: bs => a = b && hasPrefixChars as bs

/-- Rust `str::contains` for a literal needle, on char lists. -/
def containsSub (needle : List Char) : List Char → Bool
  | [] => needle.isEmpty
  | c :: t => hasPrefixChars needle (c :: t) || containsSub needle t

/-- Rust `str::ends_with` for a literal suffix, on char lists. -/
def endsWithChars (suf l : List Char) : Bool :=
  hasPrefixChars suf.reverse l.reverse

/-- Rust `str::find(char)` : index of the first occurrence. -/
def findChar (c : Char) : List Char → Option Nat
  | [] => none
  | x :: t => if x = c then some 0 else (findChar c t).map (· + 1)

/-- Rust `str::trim` (drop leading and trailing whitespace). -/
def trimChars (l : List Char) : List Char :=
  ((l.dropWhile Char.isWhitespace).reverse.dropWhile Char.isWhitespace).reverse

/-- Split on a separator character (splitter segments, keeping empties). -/
def splitOnCharAux (c : Char) : List Char → List Char → List (List Char)
  | [], acc => [acc.reverse]
  | x :: t, acc =>
    if x = c then acc.reverse :: splitOnCharAux c t [] else splitOnCharAux c t (x :: acc)

/-- Drop one trailing carriage return, as Rust `str::lines` does per line. -/
def stripCR (l : List Char) : List Char :=
  match l.getLast? with
  | some c => if c = '\r' then l.dropLast else l
  | none => l

/-- Rust `str::lines`: split on newline, drop a final empty segment,
strip one trailing carriage return from each line. -/
def rustLines (cs : List Char) : List (List Char) :=
  let parts := splitOnCharAux '\n' cs []
  (if parts.getLast? = some [] then parts.dropLast else parts).map stripCR

/- ------------------------------------------------------------------ -/
/- Unused-dependency model and parsers (src/deps.rs)                   -/
/- ------------------------------------------------------------------ -/

/-- Mirrors `UnusedDependency` from deps.rs. -/
structure UnusedDependency where
  name : String
  location : String
deriving Repr, DecidableEq

/-- The marker phrase searched for in cargo-machete output lines. -/
def markerChars : List Char := "unused dependency:".data

/-- Per-line behaviour of `parse_machete_output` (deps.rs lines 102-134):
the loop body applied to one line of the input. -/
def parseMacheteLine (l : List Char) : List UnusedDependency :=
  let line := trimChars l
  if containsSub markerChars line then
    match findChar btChar line with
    | some start =>
      let rest := line.drop (start + 1)
      match findChar btChar rest with
      | some e => [⟨String.mk (rest.take e), "[dependencies]"⟩]
      | none => []
    | none => []
  else
    if line.head? = some btChar && line.getLast? = some btChar && decide (2 < line.length) then
      let dep_name := (line.drop 1).dropLast
      if !dep_name.isEmpty && !dep_name.contains ' ' then
        [⟨String.mk dep_name, "[dependencies]"⟩]
      else []
    else []

/-- Embedding of `parse_machete_output` on the char-list level:
iterate `parseMacheteLine` over the input's lines, concatenating. -/
def parse_machete_lines (lines : List (List Char)) : List UnusedDependency :=
  lines.flatMap parseMacheteLine

/-- Embedding of `parse_machete_output` (deps.rs lines 102-134). -/
def parse_machete_output (s : String) : List UnusedDependency :=
  parse_machete_lines (rustLines s.data)

/-- The Rust function wraps its (always-successful) result in `Ok`. -/
def parse_machete_outputR (s : String) : Except String (List UnusedDependency) :=
  Except.ok (parse_machete_output s)

/-- JSON values as produced by `serde_json::from_str` (object keys are
unique after parsing; numbers are irrelevant to the fields read here). -/
inductive Json where
  | null : Json
  | bool : Bool → Json
  | num : Int → Json
  | str : String → Json
  | arr : List Json → Json
  | obj : List (String × Json) → Json

/-- Assoc-list lookup used to model `serde_json::Value::get(key)`. -/
def lookupField (k : String) : List (String × Json) → Option Json
  | [] => none
  | (k', v) :: t => if k' = k then some v else lookupField k t

/-- `Value::get(key)`: field lookup on objects, `None` otherwise. -/
def jget (j : Json) (k : String) : Option Json :=
  match j with
  | Json.obj fs => lookupField k fs
  | _ => none

/-- `Value::as_str`. -/
def Json.asStr : Json → Option String
  | Json.str s => some s
  | _ => none

/-- `Value::as_array`. -/
def Json.asArr : Json → Option (List Json)
  | Json.arr a => some a
  | _ => none

/-- The push loop of `parse_udeps_output`: keep entries with both a
string `name` and a string `location`. -/
def udepsEntries : List Json → List UnusedDependency
  | [] => []
  | d :: t =>
    match (jget d "name").bind Json.asStr, (jget d "location").bind Json.asStr with
    | some n, some l => ⟨n, l⟩ :: udepsEntries t
    | _, _ => udepsEntries t

/-- Embedding of `parse_udeps_output` (deps.rs lines 75-99).  The input
is the result of `serde_json::from_str` on the raw text (`none` when the
text is not valid JSON). -/
def parse_udeps_output (j : Option Json) : List UnusedDependency :=
  match j with
  | none => []
  | some v =>
    match (jget v "unused_deps").bind Json.asArr with
    | none => []
    | some deps => udepsEntries deps

/- ------------------------------------------------------------------ -/
/- check_unused_dependencies (deps.rs lines 21-72)                     -/
/- ------------------------------------------------------------------ -/

/-- Environment for one `check_unused_dependencies` call: for each of the
two scanner subprocess launches, `none` means the command could not be
launched, `some (stdout, stderr)` its captured streams (exit status is
read by neither branch of the source). -/
structure DepsEnv where
  udeps : Option (String × String)
  machete : Option (String × String)

/-- Scanner subprocess invocations `check_unused_dependencies` performs. -/
inductive DepsEffect where
  | runUdeps : DepsEffect
  | runMachete : DepsEffect
deriving Repr, DecidableEq

/-- The cargo-udeps stage (deps.rs lines 23-46): `some l` when that stage
returns early with `Ok(l)`, `none` when it falls through.  `jp` models
`serde_json::from_str` on a raw stream. -/
def checkViaUdeps (jp : String → Option Json) (env : DepsEnv) :
    Option (List UnusedDependency) :=
  match env.udeps with
  | none => none
  | some (out, err) =>
    if !out.isEmpty || !err.isEmpty then
      let parsed := parse_udeps_output (jp out)
      if !parsed.isEmpty then some parsed
      else
        let parsed_stderr := parse_udeps_output (jp err)
        if !parsed_stderr.isEmpty then some parsed_stderr else none
    else none

/-- The cargo-machete stage (deps.rs lines 48-68): `Ok (some l)` when it
returns early with `Ok(l)`, `Ok none` when it falls through; the `?` on
`parse_machete_output` is kept (it can in fact never produce an error). -/
def checkViaMachete (env : DepsEnv) :
    Except String (Option (List UnusedDependency)) :=
  match env.machete with
  | none => Except.ok none
  | some (out, err) =>
    match parse_machete_outputR out with
    | Except.error e => Except.error e
    | Except.ok parsed_stdout =>
      if !parsed_stdout.isEmpty then Except.ok (some parsed_stdout)
      else
        match parse_machete_outputR err with
        | Except.error e => Except.error e
        | Except.ok parsed_stderr =>
          if !parsed_stderr.isEmpty then Except.ok (some parsed_stderr)
          else Except.ok none

/-- Embedding of `check_unused_dependencies` (deps.rs lines 21-72), with
the trace of scanner invocations made. -/
def check_unused_dependencies (jp : String → Option Json) (env : DepsEnv) :
    Except String (List UnusedDependency) × List DepsEffect :=
  match checkViaUdeps jp env with
  | some l => (Except.ok l, [DepsEffect.runUdeps])
  | none =>
    match checkViaMachete env with
    | Except.ok (some l) =>
      (Except.ok l, [DepsEffect.runUdeps, DepsEffect.runMachete])
    | Except.ok none =>
      (Except.ok [], [DepsEffect.runUdeps, DepsEffect.runMachete])
    | Except.error e =>
      (Except.error e, [DepsEffect.runUdeps, DepsEffect.runMachete])

/- ------------------------------------------------------------------ -/
/- remove_unused_dependencies (deps.rs lines 137-171)                  -/
/- ------------------------------------------------------------------ -/

/-- Environment for one `remove_unused_dependencies` call:
`manifestExists` is the `Cargo.toml` existence check; `runRemove i` is
the outcome of the i-th `cargo remove` launch (`none` = could not be
launched, absorbed by the empty fallback arm; `some b` = exit success). -/
structure PruneEnv where
  manifestExists : Bool
  runRemove : Nat → Option Bool

/-- External invocations `remove_unused_dependencies` performs. -/
inductive PruneEffect where
  | cargoRemove : String → PruneEffect
deriving Repr, DecidableEq

/-- The per-dependency loop of `remove_unused_dependencies`, counting
`cargo remove` calls that exited successfully; `i` is the index of the
next invocation. -/
def removeLoop (env : PruneEnv) : List UnusedDependency → Nat → Nat × List PruneEffect
  | [], _ => (0, [])
  | d :: rest, i =>
    let r := env.runRemove i
    let rec_result := removeLoop env rest (i + 1)
    ((if r = some true then 1 else 0) + rec_result.1,
      PruneEffect.cargoRemove d.name :: rec_result.2)

/-- Embedding of `remove_unused_dependencies` (deps.rs lines 137-171),
with the trace of `cargo remove` invocations attempted. -/
def remove_unused_dependencies (env : PruneEnv) (unused_deps : List UnusedDependency)
    (dry_run : Bool) : Except String Nat × List PruneEffect :=
  if dry_run || unused_deps.isEmpty then (Except.ok 0, [])
  else if !env.manifestExists then (Except.error "Cargo.toml not found", [])
  else
    let r := removeLoop env unused_deps 0
    (Except.ok r.1, r.2)

/- ------------------------------------------------------------------ -/
/- parse_size (src/utils.rs lines 40-74)                               -/
/- ------------------------------------------------------------------ -/

/-- Uppercasing, as Rust `str::to_uppercase` (ASCII-relevant part). -/
def upperChars (l : List Char) : List Char :=
  l.map Char.toUpper

/-- Values an f64 parse can yield.  `finite num den` denotes the exact
rational `num / den` (den > 0, not necessarily reduced); keeping the
value exact is faithful because the f64 rounding step only perturbs
inputs with more than 17 significant digits, which no property here
exercises. -/
inductive FVal where
  | finite : Int → Nat → FVal
  | inf : FVal
  | neginf : FVal
  | nan : FVal
deriving DecidableEq

/-- Digits-to-number accumulation. -/
def digitsVal (ds : List Char) : Nat :=
  ds.foldl (fun a c => a * 10 + (c.toNat - 48)) 0

/-- Split a char list into its leading digit span and the remainder. -/
def splitDigits (cs : List Char) : List Char × List Char :=
  (cs.takeWhile Char.isDigit, cs.dropWhile Char.isDigit)

/-- Build the exact rational (as numerator and positive denominator)
for mantissa digits `ip "." fp` times `10 ^ e`. -/
def mkQ (neg : Bool) (ip fp : List Char) (e : Int) : Int × Nat :=
  let num : Int := (digitsVal ip * 10 ^ fp.length + digitsVal fp : Nat)
  let num : Int := if neg then -num else num
  if 0 ≤ e then (num * 10 ^ e.toNat, 10 ^ fp.length)
  else (num, 10 ^ fp.length * 10 ^ (-e).toNat)

/-- The exponent part of the Rust `f64::from_str` grammar, applied to
what follows the mantissa: empty means exponent 0, otherwise
`"E" [sign] digits`. -/
def parseExpPart (r2 : List Char) : Option Int :=
  if r2.isEmpty then some 0
  else if r2.head? = some 'E' then
    let t := r2.tail
    let esgn : Int := if t.head? = some '-' then -1 else 1
    let t2 := if t.head? = some '-' ∨ t.head? = some '+' then t.tail else t
    let ed := (splitDigits t2).1
    let r3 := (splitDigits t2).2
    if ed.isEmpty || !r3.isEmpty then none
    else some (esgn * (digitsVal ed : Int))
  else none

/-- Decimal-number part of the Rust `f64::from_str` grammar
(sign already stripped): `digits ["." [digits]] [exp]` or
`"." digits [exp]`, with at least one mantissa digit required.  The
input reaching this model is always uppercased by the caller. -/
def parseDecimal (neg : Bool) (cs : List Char) : Option FVal :=
  let ip := (splitDigits cs).1
  let r1 := (splitDigits cs).2
  let fp := if r1.head? = some '.' then (splitDigits r1.tail).1 else []
  let r2 := if r1.head? = some '.' then (splitDigits r1.tail).2 else r1
  if ip.isEmpty && fp.isEmpty then none
  else
    match parseExpPart r2 with
    | none => none
    | some e => some (FVal.finite (mkQ neg ip fp e).1 (mkQ neg ip fp e).2)

/-- Model of Rust `f64::from_str` on the (already-uppercased) number
part: optional sign, then INF / INFINITY / NAN or a decimal number. -/
def parseF64 (cs : List Char) : Option FVal :=
  let neg : Bool := decide (cs.head? = some '-')
  let rest := if cs.head? = some '-' ∨ cs.head? = some '+' then cs.tail else cs
  if rest = "INF".data ∨ rest = "INFINITY".data then
    some (if neg then FVal.neginf else FVal.inf)
  else if rest = "NAN".data then some FVal.nan
  else parseDecimal neg rest

/-- Multiply a parsed value by the (positive) unit multiplier, as the
source's `number * multiplier as f64`. -/
def fvalMul (v : FVal) (m : Nat) : FVal :=
  match v with
  | FVal.finite num den => FVal.finite (num * m) den
  | FVal.inf => FVal.inf
  | FVal.neginf => FVal.neginf
  | FVal.nan => FVal.nan

/-- Rust's saturating float-to-integer cast `as u64`: NaN and negatives
go to 0, values at or above `2^64` to `u64::MAX`, finite non-negative
values truncate toward zero. -/
def f64ToU64 (v : FVal) : Nat :=
  match v with
  | FVal.nan => 0
  | FVal.neginf => 0
  | FVal.inf => 2 ^ 64 - 1
  | FVal.finite num den =>
    if num ≤ 0 then 0 else min (2 ^ 64 - 1) (num.toNat / den)

/-- The `ends_with` dispatch of `parse_size` (utils.rs lines 43-58):
the number slice and the multiplier for the recognized unit suffix. -/
def suffixUnit (cs : List Char) : Option (List Char × Nat) :=
  if endsWithChars "B".data cs then
    if endsWithChars "KB".data cs then some (cs.take (cs.length - 2), 1024)
    else if endsWithChars "MB".data cs then some (cs.take (cs.length - 2), 1024 * 1024)
    else if endsWithChars "GB".data cs then some (cs.take (cs.length - 2), 1024 * 1024 * 1024)
    else if endsWithChars "TB".data cs then some (cs.take (cs.length - 2), 1024 * 1024 * 1024 * 1024)
    else some (cs.take (cs.length - 1), 1)
  else none

/-- Embedding of `parse_size` (utils.rs lines 40-74). -/
def parse_size (s : String) : Except String Nat :=
  let cs := upperChars (trimChars s.data)
  match suffixUnit cs with
  | none => Except.error "Invalid size format: expected format like 100MB or 1GB"
  | some (numCs, mult) =>
    match parseF64 (trimChars numCs) with
    | none => Except.error ("Invalid number in size: " ++ String.mk numCs)
    | some v => Except.ok (f64ToU64 (fvalMul v mult))

/-- Validity of a size string as the spec words it: after trimming and
uppercasing, the string ends in one of the unit suffixes B/KB/MB/GB/TB
and the magnitude before the suffix is numeric. -/
def sizeSpecOk (s : String) : Bool :=
  let cs := upperChars (trimChars s.data)
  (endsWithChars "KB".data cs && (parseF64 (trimChars (cs.take (cs.length - 2)))).isSome) ||
  (endsWithChars "MB".data cs && (parseF64 (trimChars (cs.take (cs.length - 2)))).isSome) ||
  (endsWithChars "GB".data cs && (parseF64 (trimChars (cs.take (cs.length - 2)))).isSome) ||
  (endsWithChars "TB".data cs && (parseF64 (trimChars (cs.take (cs.length - 2)))).isSome) ||
  (endsWithChars "B".data cs && (parseF64 (trimChars (cs.take (cs.length - 1)))).isSome)

/- ------------------------------------------------------------------ -/
/- Theorems                                                            -/
/- ------------------------------------------------------------------ -/

/-- C1: for every project, `clean(project, dry_run=true)` succeeds with
`freed_bytes` equal to the build-output directory's size measured before
the call (0 if it does not exist), and performs no filesystem mutation
(the effect trace is empty: no external command is run, nothing is
deleted). -/
theorem clean_dry_run_spec (env : CleanEnv) :
    clean_project env true =
      (Except.ok ⟨env.path, true, measuredTargetSize env, none⟩, []) := by
  simp [clean_project]

/-- C2: when the external clean command exits with failure or cannot be
launched, the fallback deletes the still-existing build-output directory
and reports the pre-clean size on success, propagates a deletion I/O
error as that project's error, and reports success with 0 freed when the
directory does not exist. -/
theorem clean_fallback_spec (env : CleanEnv)
    (h : env.cargoClean = none ∨ env.cargoClean = some false) :
    (env.targetExistsFallback = true → env.removeDirOk = true →
       clean_project env false =
         (Except.ok ⟨env.path, true, measuredTargetSize env, none⟩,
          [CleanEffect.runCargoClean, CleanEffect.removeDirAll])) ∧
    (env.targetExistsFallback = true → env.removeDirOk = false →
       (clean_project env false).1 =
         Except.error ("Failed to remove target directory: " ++ env.path) ∧
       (clean_project env false).2 =
         [CleanEffect.runCargoClean, CleanEffect.removeDirAll]) ∧
    (env.targetExistsFallback = false →
       clean_project env false =
         (Except.ok ⟨env.path, true, 0, none⟩, [CleanEffect.runCargoClean])) := by
  refine ⟨?_, ?_, ?_⟩
  · intro hex hok
    rcases h with h | h <;> simp [clean_project, h, hex, hok]
  · intro hex hok
    rcases h with h | h <;> simp [clean_project, h, hex, hok]
  · intro hex
    rcases h with h | h <;> simp [clean_project, h, hex]

/-- Witness instantiating `clean_fallback_spec` at a concrete project
whose clean command exits with failure and whose directory removal
succeeds. -/
theorem clean_fallback_spec_witness :
    clean_project ⟨"p", true, some 7, some false, true, some 0, true, true⟩ false =
      (Except.ok ⟨"p", true, 7, none⟩,
       [CleanEffect.runCargoClean, CleanEffect.removeDirAll]) :=
  (clean_fallback_spec _ (Or.inr rfl)).1 rfl rfl

/-- C3: when the external clean command exits successfully, the freed
byte count is the saturating difference of the sizes measured before and
after — never negative. -/
theorem clean_success_spec (env : CleanEnv) (h : env.cargoClean = some true) :
    clean_project env false =
      (Except.ok ⟨env.path, true,
         measuredTargetSize env - measuredTargetSizeAfter env, none⟩,
       [CleanEffect.runCargoClean]) ∧
    ((measuredTargetSize env - measuredTargetSizeAfter env : Nat) : Int) =
      max ((measuredTargetSize env : Int) - (measuredTargetSizeAfter env : Int)) 0 := by
  constructor
  · simp [clean_project, h]
  · omega

/-- Witness instantiating `clean_success_spec` at a concrete project:
10 bytes before, 4 after, 6 reported freed. -/
theorem clean_success_spec_witness :
    clean_project ⟨"p", true, some 10, some true, true, some 4, true, true⟩ false =
      (Except.ok ⟨"p", true, 6, none⟩, [CleanEffect.runCargoClean]) :=
  (clean_success_spec _ rfl).1

/-- C8: `format_bytes 0 = "0 B"`, `format_bytes 1024 = "1.00 KB"`;
bytes below 1024 render as an integer with unit B; bytes at or above
1024 render as a 2-decimal mantissa with the largest binary unit not
exceeding the value among KB/MB/GB/TB — never with unit B. -/
theorem format_bytes_spec :
    format_bytes 0 = "0 B" ∧
    format_bytes 1024 = "1.00 KB" ∧
    (∀ b : Nat, b < 1024 → format_bytes b = toString b ++ " B") ∧
    (∀ b : Nat, 1024 ≤ b → ∃ k m : Nat,
       1 ≤ k ∧ k ≤ 4 ∧ 1024 ^ k ≤ b ∧ (k < 4 → b < 1024 ^ (k + 1)) ∧
       unitsName k ≠ "B" ∧
       format_bytes b = twoDecString m ++ " " ++ unitsName k) := by
  refine ⟨by decide, by decide, ?_, ?_⟩
  · intro b hb
    have h0 : unitIdx b = 0 := by simp [unitIdx, hb]
    simp [format_bytes, h0]
  · intro b hb
    have hnb : ¬ b < 1024 := by omega
    by_cases h2 : b < 1024 * 1024
    · have hidx : unitIdx b = 1 := by simp [unitIdx, hnb, h2]
      refine ⟨1, roundHalfEven (b * 100) (1024 ^ 1), le_refl 1, by omega,
        by rw [pow_one]; omega, by intro _; norm_num; omega, by decide, ?_⟩
      simp [format_bytes, hidx]
    · by_cases h3 : b < 1024 * 1024 * 1024
      · have hidx : unitIdx b = 2 := by simp [unitIdx, hnb, h2, h3]
        refine ⟨2, roundHalfEven (b * 100) (1024 ^ 2), by omega, by omega,
          by norm_num; omega, by intro _; norm_num; omega, by decide, ?_⟩
        simp [format_bytes, hidx]
      · by_cases h4 : b < 1024 * 1024 * 1024 * 1024
        · have hidx : unitIdx b = 3 := by simp [unitIdx, hnb, h2, h3, h4]
          refine ⟨3, roundHalfEven (b * 100) (1024 ^ 3), by omega, by omega,
            by norm_num; omega, by intro _; norm_num; omega, by decide, ?_⟩
          simp [format_bytes, hidx]
        · have hidx : unitIdx b = 4 := by simp [unitIdx, hnb, h2, h3, h4]
          refine ⟨4, roundHalfEven (b * 100) (1024 ^ 4), by omega, by omega,
            by norm_num; omega, by intro h; exact absurd h (by norm_num), by decide, ?_⟩
          simp [format_bytes, hidx]

/-- Witness instantiating `format_bytes_spec` on the sub-1024 branch. -/
theorem format_bytes_spec_witness : format_bytes 512 = "512 B" :=
  format_bytes_spec.2.2.1 512 (by decide)

/-- The structured parse as the spec words it: exactly the entries of
the `unused_deps` array having both a string `name` and a string
`location`, in order, skipping the rest; anything else yields `[]`. -/
def udepsSpecParse (j : Option Json) : List UnusedDependency :=
  match j with
  | none => []
  | some v =>
    match (jget v "unused_deps").bind Json.asArr with
    | none => []
    | some deps =>
      deps.filterMap (fun d =>
        match (jget d "name").bind Json.asStr, (jget d "location").bind Json.asStr with
        | some n, some l => some ⟨n, l⟩
        | _, _ => none)

/-- The push loop keeps exactly the well-formed entries, in order. -/
theorem udepsEntries_eq_filterMap (l : List Json) :
    udepsEntries l = l.filterMap (fun d =>
      match (jget d "name").bind Json.asStr, (jget d "location").bind Json.asStr with
      | some n, some loc => some ⟨n, loc⟩
      | _, _ => none) := by
  induction l with
  | nil => rfl
  | cons d t ih =>
    rw [List.filterMap_cons]
    cases hn : (jget d "name").bind Json.asStr with
    | none => simp only [udepsEntries, hn]; exact ih
    | some n =>
      cases hl : (jget d "location").bind Json.asStr with
      | none => simp only [udepsEntries, hn, hl]; exact ih
      | some loc => simp only [udepsEntries, hn, hl]; rw [ih]

/-- C6: the structured (JSON) scanner parser returns exactly the
entries of the `unused_deps` array that carry both a string `name` and
a string `location`, skipping the rest; malformed or non-JSON input
(no parse, no object, no array field) yields an empty list, never an
error. -/
theorem parse_udeps_spec :
    (∀ j, parse_udeps_output j = udepsSpecParse j) ∧
    parse_udeps_output none = [] := by
  constructor
  · intro j
    cases j with
    | none => rfl
    | some v =>
      simp only [parse_udeps_output, udepsSpecParse]
      cases h : (jget v "unused_deps").bind Json.asArr with
      | none => rfl
      | some deps => exact udepsEntries_eq_filterMap deps
  · rfl

/-- The per-dependency loop counts exactly the invocations whose
`cargo remove` exits successfully, shifted by the start index. -/
theorem removeLoop_fst (env : PruneEnv) :
    ∀ (deps : List UnusedDependency) (i : Nat),
      (removeLoop env deps i).1 =
        (List.range deps.length).countP
          (fun j => decide (env.runRemove (j + i) = some true)) := by
  intro deps
  induction deps with
  | nil => intro i; rfl
  | cons d rest ih =>
    intro i
    have hr : (List.range (rest.length + 1)).countP
        (fun j => decide (env.runRemove (j + i) = some true)) =
        (List.range rest.length).countP
          (fun j => decide (env.runRemove (j + (i + 1)) = some true)) +
        (if env.runRemove i = some true then 1 else 0) := by
      rw [List.range_succ_eq_map, List.countP_cons, List.countP_map]
      have : ((fun j => decide (env.runRemove (j + i) = some true)) ∘ Nat.succ) =
          (fun j => decide (env.runRemove (j + (i + 1)) = some true)) := by
        funext j
        have h1 : j.succ + i = j + (i + 1) := by omega
        simp [Function.comp, h1]
      rw [this]
      simp [Nat.zero_add]
    simp only [removeLoop, List.length_cons, hr, ih (i + 1)]
    omega

/-- The loop's count never exceeds the number of dependencies. -/
theorem removeLoop_le (env : PruneEnv) (deps : List UnusedDependency) :
    (removeLoop env deps 0).1 ≤ deps.length := by
  rw [removeLoop_fst]
  calc (List.range deps.length).countP _ ≤ (List.range deps.length).length :=
        List.countP_le_length _
    _ = deps.length := List.length_range _

/-- C7 counterexample: with a missing manifest, a non-dry-run call on a
non-empty list returns an error — the pruner does not "never error
outward". -/
theorem remove_unused_never_errs_false :
    (remove_unused_dependencies ⟨false, fun _ => none⟩
        [⟨"serde", "[dependencies]"⟩] false).1 =
      Except.error "Cargo.toml not found" := rfl

/-- C7 (amended): the pruner returns the count of dependencies whose
removal command exited successfully, skipping per-dependency failures
without aborting the rest; the count never exceeds the input length;
dry-run or an empty list short-circuits to 0 with no side effects; and
it never errors outward except when the manifest is missing on a
non-dry-run call with a non-empty list. -/
theorem remove_unused_amended (env : PruneEnv) (deps : List UnusedDependency)
    (dry : Bool) :
    ((dry = true ∨ deps = []) →
       remove_unused_dependencies env deps dry = (Except.ok 0, [])) ∧
    (dry = false → deps ≠ [] → env.manifestExists = true →
       (remove_unused_dependencies env deps dry).1 =
         Except.ok ((List.range deps.length).countP
           (fun j => decide (env.runRemove j = some true)))) ∧
    (∀ n, (remove_unused_dependencies env deps dry).1 = Except.ok n →
       n ≤ deps.length) ∧
    (dry = false → deps ≠ [] → env.manifestExists = false →
       (remove_unused_dependencies env deps dry).1 =
         Except.error "Cargo.toml not found") := by
  refine ⟨?_, ?_, ?_, ?_⟩
  · rintro (h | h) <;> simp [remove_unused_dependencies, h]
  · intro hdry hne hman
    have hfst := removeLoop_fst env deps 0
    simp only [remove_unused_dependencies, hdry, hman]
    simp [List.isEmpty_iff, hne, hfst]
  · intro n hn
    by_cases hdry : dry = true
    · simp [remove_unused_dependencies, hdry] at hn
      omega
    · replace hdry : dry = false := by
        cases dry
        · rfl
        · exact absurd rfl hdry
      by_cases hne : deps = []
      · simp [remove_unused_dependencies, hdry, hne] at hn
        omega
      · cases hman : env.manifestExists
        · simp [remove_unused_dependencies, hdry, hman, List.isEmpty_iff, hne] at hn
        · simp [remove_unused_dependencies, hdry, hman, List.isEmpty_iff, hne] at hn
          subst hn
          exact removeLoop_le env deps
  · intro hdry hne hman
    simp [remove_unused_dependencies, hdry, hman, List.isEmpty_iff, hne]

/-- Witness instantiating `remove_unused_amended`: two dependencies, the
first removal succeeds, the second fails, count 1 reported. -/
theorem remove_unused_amended_witness :
    (remove_unused_dependencies ⟨true, fun i => some (i == 0)⟩
        [⟨"a", "[dependencies]"⟩, ⟨"b", "[dependencies]"⟩] false).1 =
      Except.ok 1 :=
  (remove_unused_amended _ _ _).2.1 rfl (List.cons_ne_nil _ _) rfl

/-- C10: the dry-run / empty-list short-circuit precedes the
manifest-existence check, so those calls return 0 even with no manifest;
the manifest-missing error arises exactly on a non-dry-run call with a
non-empty list and no manifest. -/
theorem prune_precedence_spec (env : PruneEnv) (deps : List UnusedDependency) :
    remove_unused_dependencies env deps true = (Except.ok 0, []) ∧
    remove_unused_dependencies env [] false = (Except.ok 0, []) ∧
    (env.manifestExists = false → deps ≠ [] →
       (remove_unused_dependencies env deps false).1 =
         Except.error "Cargo.toml not found") ∧
    (∀ e dry, (remove_unused_dependencies env deps dry).1 = Except.error e →
       dry = false ∧ deps ≠ [] ∧ env.manifestExists = false ∧
       e = "Cargo.toml not found") := by
  refine ⟨by simp [remove_unused_dependencies], by simp [remove_unused_dependencies], ?_, ?_⟩
  · intro hman hne
    simp [remove_unused_dependencies, hman, List.isEmpty_iff, hne]
  · intro e dry he
    by_cases hdry : dry = true
    · simp [remove_unused_dependencies, hdry] at he
    · replace hdry : dry = false := by
        cases dry
        · rfl
        · exact absurd rfl hdry
      by_cases hne : deps = []
      · simp [remove_unused_dependencies, hdry, hne] at he
      · cases hman : env.manifestExists
        · simp [remove_unused_dependencies, hdry, hman, List.isEmpty_iff, hne] at he
          exact ⟨hdry, hne, rfl, he.symm⟩
        · simp [remove_unused_dependencies, hdry, hman, List.isEmpty_iff, hne] at he

/-- Witness instantiating `prune_precedence_spec`: with no manifest, a
dry-run call still returns 0 rather than the manifest-missing error. -/
theorem prune_precedence_witness :
    remove_unused_dependencies ⟨false, fun _ => none⟩
        [⟨"serde", "[dependencies]"⟩] true = (Except.ok 0, []) :=
  (prune_precedence_spec _ _).1

/-- The first occurrence of `c` in `a ++ c :: r` is at index `a.length`
when `c` does not occur in `a`. -/
theorem findChar_append_not_mem (c : Char) (a r : List Char) (ha : c ∉ a) :
    findChar c (a ++ c :: r) = some a.length := by
  induction a with
  | nil => simp [findChar]
  | cons x t ih =>
    have hx : ¬ x = c := fun hh => ha (by rw [← hh]; exact List.mem_cons_self x t)
    have ht : c ∉ t := fun hh => ha (List.mem_cons_of_mem _ hh)
    simp [findChar, hx, ih ht]

/-- `findChar` misses exactly when the character is absent. -/
theorem findChar_eq_none (c : Char) (l : List Char) (h : c ∉ l) :
    findChar c l = none := by
  induction l with
  | nil => rfl
  | cons x t ih =>
    have hx : ¬ x = c := fun hh => h (by rw [← hh]; exact List.mem_cons_self x t)
    have ht : c ∉ t := fun hh => h (List.mem_cons_of_mem _ hh)
    simp [findChar, hx, ih ht]

/-- C5 (amended): the line parser works line by line; a line whose trim
contains the marker phrase yields the text between the first two
backticks of the line (wherever they sit relative to the marker, empty
text included), or nothing if the line has no backtick or exactly one; a
marker-free line whose trim is entirely backtick-quoted with nonempty
interior yields that interior exactly when it contains no space
character (other whitespace such as tab is accepted); every other line
contributes nothing.  Location always defaults to "[dependencies]". -/
theorem parse_machete_amended :
    (∀ s, parse_machete_output s = (rustLines s.data).flatMap parseMacheteLine) ∧
    (∀ l a name b, containsSub markerChars (trimChars l) = true →
       trimChars l = a ++ btChar :: (name ++ btChar :: b) →
       btChar ∉ a → btChar ∉ name →
       parseMacheteLine l = [⟨String.mk name, "[dependencies]"⟩]) ∧
    (∀ l, containsSub markerChars (trimChars l) = true →
       btChar ∉ trimChars l → parseMacheteLine l = []) ∧
    (∀ l a b, containsSub markerChars (trimChars l) = true →
       trimChars l = a ++ btChar :: b → btChar ∉ a → btChar ∉ b →
       parseMacheteLine l = []) ∧
    (∀ l name, containsSub markerChars (trimChars l) = false →
       trimChars l = btChar :: (name ++ [btChar]) → name ≠ [] →
       ((' ' ∉ name → parseMacheteLine l = [⟨String.mk name, "[dependencies]"⟩]) ∧
        (' ' ∈ name → parseMacheteLine l = []))) ∧
    (∀ l, containsSub markerChars (trimChars l) = false →
       ¬((trimChars l).head? = some btChar ∧ (trimChars l).getLast? = some btChar ∧
          2 < (trimChars l).length) →
       parseMacheteLine l = []) := by
  refine ⟨fun s => rfl, ?_, ?_, ?_, ?_, ?_⟩
  · intro l a name b hmark heq ha hname
    have h1 : findChar btChar (trimChars l) = some a.length := by
      rw [heq]; exact findChar_append_not_mem _ _ _ ha
    have h2 : (trimChars l).drop (a.length + 1) = name ++ btChar :: b := by
      rw [heq, show a ++ btChar :: (name ++ btChar :: b) =
        (a ++ [btChar]) ++ (name ++ btChar :: b) by simp,
        show a.length + 1 = (a ++ [btChar]).length by simp]
      exact List.drop_left _ _
    have h3 : findChar btChar (name ++ btChar :: b) = some name.length :=
      findChar_append_not_mem _ _ _ hname
    have h4 : (name ++ btChar :: b).take name.length = name := List.take_left _ _
    simp [parseMacheteLine, hmark, h1, h2, h3, h4]
  · intro l hmark hnb
    simp [parseMacheteLine, hmark, findChar_eq_none _ _ hnb]
  · intro l a b hmark heq ha hb
    have h1 : findChar btChar (trimChars l) = some a.length := by
      rw [heq]; exact findChar_append_not_mem _ _ _ ha
    have h2 : (trimChars l).drop (a.length + 1) = b := by
      rw [heq, show a ++ btChar :: b = (a ++ [btChar]) ++ b by simp,
        show a.length + 1 = (a ++ [btChar]).length by simp]
      exact List.drop_left _ _
    simp [parseMacheteLine, hmark, h1, h2, findChar_eq_none _ _ hb]
  · intro l name hmark heq hne
    have hhead : (trimChars l).head? = some btChar := by rw [heq]; rfl
    have hlast : (trimChars l).getLast? = some btChar := by
      rw [heq, show btChar :: (name ++ [btChar]) = (btChar :: name) ++ [btChar] by simp]
      exact List.getLast?_concat _
    have h3 : 2 < (trimChars l).length := by
      rw [heq]
      have := List.length_pos.2 hne
      simp
      omega
    have hdep : (trimChars l).tail.dropLast = name := by
      rw [heq]
      simp [List.dropLast_concat]
    constructor
    · intro hsp
      simp [parseMacheteLine, hmark, hhead, hlast, h3, hdep, hne, hsp]
    · intro hsp
      simp [parseMacheteLine, hmark, hhead, hlast, h3, hdep, hsp]
  · intro l hmark hnot
    by_cases h1 : (trimChars l).head? = some btChar
    · by_cases h2 : (trimChars l).getLast? = some btChar
      · by_cases h3 : 2 < (trimChars l).length
        · exact absurd ⟨h1, h2, h3⟩ hnot
        · simp [parseMacheteLine, hmark, h1, h2, h3]
      · simp [parseMacheteLine, hmark, h1, h2]
    · simp [parseMacheteLine, hmark, h1]

/-- Witness instantiating `parse_machete_amended` on the documented
marker-line format. -/
theorem parse_machete_amended_witness :
    parseMacheteLine "unused dependency: `serde`".data =
      [⟨"serde", "[dependencies]"⟩] :=
  parse_machete_amended.2.1 "unused dependency: `serde`".data
    "unused dependency: ".data "serde".data []
    (by decide) (by decide) (by decide) (by decide)

/-- C5 counterexample: the line consisting of a backtick-quoted token
with an interior tab (whitespace, but not a space character) has no
marker and is not a whitespace-free token, so by the claim it should
contribute nothing — yet the parser emits it, because the source only
rejects interior space characters. -/
theorem parse_machete_claim_counterexample :
    parse_machete_output "`a\tb`" = [⟨"a\tb", "[dependencies]"⟩] ∧
    containsSub markerChars (trimChars "`a\tb`".data) = false ∧
    '\t'.isWhitespace = true ∧ '\t' ∈ "a\tb".data := by
  exact ⟨by decide, by decide, by decide, by decide⟩

/-- Scanner A is unavailable or yields no parseable findings on either
stream. -/
def udepsUnproductive (jp : String → Option Json) (env : DepsEnv) : Prop :=
  match env.udeps with
  | none => True
  | some (out, err) =>
    parse_udeps_output (jp out) = [] ∧ parse_udeps_output (jp err) = []

/-- Scanner B is unavailable or yields no parseable findings on either
stream. -/
def macheteUnproductive (env : DepsEnv) : Prop :=
  match env.machete with
  | none => True
  | some (out, err) =>
    parse_machete_output out = [] ∧ parse_machete_output err = []

/-- The cargo-machete stage can never produce an error value. -/
theorem checkViaMachete_ok (env : DepsEnv) :
    ∃ o, checkViaMachete env = Except.ok o := by
  cases henv : env.machete with
  | none => exact ⟨none, by simp [checkViaMachete, henv]⟩
  | some p =>
    rcases p with ⟨out, err⟩
    by_cases h1 : (parse_machete_output out).isEmpty = true
    · by_cases h2 : (parse_machete_output err).isEmpty = true
      · exact ⟨none, by simp [checkViaMachete, henv, parse_machete_outputR, h1, h2]⟩
      · exact ⟨some (parse_machete_output err),
          by simp [checkViaMachete, henv, parse_machete_outputR, h1, h2]⟩
    · exact ⟨some (parse_machete_output out),
        by simp [checkViaMachete, henv, parse_machete_outputR, h1]⟩

/-- C4: detection never fails; scanner A's first stream (stdout, then
stderr) whose structured output parses to a non-empty list wins and
scanner B is never invoked; if both scanners are unavailable or
unproductive the result is the empty list, not an error.  The
hypothesis `jp "" = none` states that the external JSON parser rejects
the empty string, as `serde_json::from_str("")` does. -/
theorem check_unused_spec (jp : String → Option Json) (env : DepsEnv)
    (hjp : jp "" = none) :
    (∃ l, (check_unused_dependencies jp env).1 = Except.ok l) ∧
    (∀ out err, env.udeps = some (out, err) →
       (parse_udeps_output (jp out) ≠ [] →
          check_unused_dependencies jp env =
            (Except.ok (parse_udeps_output (jp out)), [DepsEffect.runUdeps])) ∧
       (parse_udeps_output (jp out) = [] → parse_udeps_output (jp err) ≠ [] →
          check_unused_dependencies jp env =
            (Except.ok (parse_udeps_output (jp err)), [DepsEffect.runUdeps]))) ∧
    (udepsUnproductive jp env → macheteUnproductive env →
       check_unused_dependencies jp env =
         (Except.ok [], [DepsEffect.runUdeps, DepsEffect.runMachete])) := by
  refine ⟨?_, ?_, ?_⟩
  · obtain ⟨o, ho⟩ := checkViaMachete_ok env
    cases hu : checkViaUdeps jp env with
    | some l => exact ⟨l, by simp [check_unused_dependencies, hu]⟩
    | none =>
      cases o with
      | some l => exact ⟨l, by simp [check_unused_dependencies, hu, ho]⟩
      | none => exact ⟨[], by simp [check_unused_dependencies, hu, ho]⟩
  · intro out err henv
    constructor
    · intro hne
      have hout : out.isEmpty = false := by
        cases h : out.isEmpty
        · rfl
        · exfalso
          rw [(String.isEmpty_iff out).mp h, hjp] at hne
          exact hne rfl
      have hpe : (parse_udeps_output (jp out)).isEmpty = false := by
        cases h : (parse_udeps_output (jp out)).isEmpty
        · rfl
        · exact absurd (List.isEmpty_iff.mp h) hne
      have hcv : checkViaUdeps jp env = some (parse_udeps_output (jp out)) := by
        simp [checkViaUdeps, henv, hout, hpe]
      simp [check_unused_dependencies, hcv]
    · intro hemp hne
      have herr : err.isEmpty = false := by
        cases h : err.isEmpty
        · rfl
        · exfalso
          rw [(String.isEmpty_iff err).mp h, hjp] at hne
          exact hne rfl
      have hpe : (parse_udeps_output (jp err)).isEmpty = false := by
        cases h : (parse_udeps_output (jp err)).isEmpty
        · rfl
        · exact absurd (List.isEmpty_iff.mp h) hne
      have hcv : checkViaUdeps jp env = some (parse_udeps_output (jp err)) := by
        simp [checkViaUdeps, henv, herr, hemp, hpe]
      simp [check_unused_dependencies, hcv]
  · intro hu hm
    have hcu : checkViaUdeps jp env = none := by
      cases henv : env.udeps with
      | none => simp [checkViaUdeps, henv]
      | some p =>
        rcases p with ⟨out, err⟩
        simp only [udepsUnproductive, henv] at hu
        simp [checkViaUdeps, henv, hu.1, hu.2]
    have hcm : checkViaMachete env = Except.ok none := by
      cases henv : env.machete with
      | none => simp [checkViaMachete, henv]
      | some p =>
        rcases p with ⟨out, err⟩
        simp only [macheteUnproductive, henv] at hm
        simp [checkViaMachete, henv, parse_machete_outputR, hm.1, hm.2]
    simp [check_unused_dependencies, hcu, hcm]

/-- Witness instantiating `check_unused_spec` with both scanner tools
unavailable: detection still succeeds with the empty list. -/
theorem check_unused_spec_witness :
    check_unused_dependencies (fun _ => none) ⟨none, none⟩ =
      (Except.ok [], [DepsEffect.runUdeps, DepsEffect.runMachete]) :=
  (check_unused_spec (fun _ => none) ⟨none, none⟩ rfl).2.2 trivial trivial

/-- A list's last element is a member. -/
theorem getLastMemChar {l : List Char} {c : Char} (h : l.getLast? = some c) :
    c ∈ l := by
  cases l with
  | nil => cases h
  | cons a t =>
    rw [List.getLast?_eq_getLast _ (by simp), Option.some_inj] at h
    have h2 := List.getLast_mem (l := a :: t) (by simp)
    rw [h] at h2
    exact h2

/-- Appending a nonempty list determines the last element. -/
theorem getLast?_append_ne (l₁ l₂ : List Char) (h : l₂ ≠ []) :
    (l₁ ++ l₂).getLast? = l₂.getLast? := by
  rw [List.getLast?_append, List.getLast?_eq_getLast l₂ h]
  rfl

/-- Consing onto a nonempty list keeps its last element. -/
theorem getLast?_cons_ne (a : Char) (l : List Char) (h : l ≠ []) :
    (a :: l).getLast? = l.getLast? :=
  getLast?_append_ne [a] l h

/-- A list with head `c` is `c` consed on its tail. -/
theorem head?_some_eq {l : List Char} {c : Char} (h : l.head? = some c) :
    l = c :: l.tail := by
  cases l with
  | nil => cases h
  | cons a t =>
    simp only [List.head?_cons, Option.some_inj] at h
    rw [h]
    rfl

/-- Trimming preserves a non-whitespace last character. -/
theorem trimChars_getLast (l : List Char) (c : Char)
    (hlast : l.getLast? = some c) (hws : c.isWhitespace = false) :
    (trimChars l).getLast? = some c := by
  have hm : l.dropWhile Char.isWhitespace ≠ [] := by
    intro hmE
    have hl : l.takeWhile Char.isWhitespace = l := by
      conv_rhs => rw [← List.takeWhile_append_dropWhile (p := Char.isWhitespace) (l := l)]
      rw [hmE, List.append_nil]
    have hcm : c ∈ l := getLastMemChar hlast
    rw [← hl] at hcm
    have h2 := List.mem_takeWhile_imp hcm
    rw [hws] at h2
    cases h2
  have hml : (l.dropWhile Char.isWhitespace).getLast? = some c := by
    have hsp := List.takeWhile_append_dropWhile (p := Char.isWhitespace) (l := l)
    rw [← hsp] at hlast
    rwa [getLast?_append_ne _ _ hm] at hlast
  unfold trimChars
  rw [List.getLast?_reverse]
  have hrh : (l.dropWhile Char.isWhitespace).reverse.head? = some c := by
    rw [List.head?_reverse]
    exact hml
  rw [head?_some_eq hrh, List.dropWhile_cons]
  simp [hws]

/-- A list consisting only of its leading digit span is all digits on
its last character. -/
theorem all_digits_last (t2 : List Char)
    (hEd : (t2.takeWhile Char.isDigit).isEmpty = false)
    (hr3 : t2.dropWhile Char.isDigit = []) :
    t2 ≠ [] ∧ ∀ c, t2.getLast? = some c → c.isDigit = true := by
  have ht2 : t2.takeWhile Char.isDigit = t2 := by
    conv_rhs => rw [← List.takeWhile_append_dropWhile (p := Char.isDigit) (l := t2)]
    rw [hr3, List.append_nil]
  constructor
  · intro h
    rw [h] at hEd
    simp at hEd
  · intro c hcl
    have hmem : c ∈ t2 := getLastMemChar hcl
    rw [← ht2] at hmem
    exact List.mem_takeWhile_imp hmem

/-- A successfully parsed exponent part is empty or ends in a digit. -/
theorem parseExpPart_last (r2 : List Char) (e : Int)
    (h : parseExpPart r2 = some e) :
    r2 = [] ∨ (r2 ≠ [] ∧ ∀ c, r2.getLast? = some c → c.isDigit = true) := by
  by_cases hE0 : r2.isEmpty = true
  · exact Or.inl (List.isEmpty_iff.mp hE0)
  · right
    have hr2ne : r2 ≠ [] := fun hnil => hE0 (by rw [hnil]; rfl)
    refine ⟨hr2ne, ?_⟩
    intro c hc
    simp only [parseExpPart, splitDigits, hE0] at h
    by_cases hE : r2.head? = some 'E'
    · simp only [hE, if_true, if_pos] at h
      by_cases hsgn : (r2.tail.head? = some '-' ∨ r2.tail.head? = some '+')
      · rw [if_pos hsgn] at h
        by_cases hbad : ((r2.tail.tail.takeWhile Char.isDigit).isEmpty ||
            !(r2.tail.tail.dropWhile Char.isDigit).isEmpty) = true
        · rw [if_pos hbad] at h
          cases h
        · have hEd : (r2.tail.tail.takeWhile Char.isDigit).isEmpty = false := by
            cases hx : (r2.tail.tail.takeWhile Char.isDigit).isEmpty
            · rfl
            · exact absurd (by rw [hx]; rfl) hbad
          have hr3 : r2.tail.tail.dropWhile Char.isDigit = [] := by
            cases hx : (r2.tail.tail.dropWhile Char.isDigit).isEmpty
            · exfalso
              apply hbad
              rw [hEd, hx]
              rfl
            · exact List.isEmpty_iff.mp hx
          obtain ⟨ht2ne, hdig⟩ := all_digits_last _ hEd hr3
          have h1 : r2 = 'E' :: r2.tail := head?_some_eq hE
          have h2 : ∃ sc, r2.tail = sc :: r2.tail.tail := by
            rcases hsgn with hs | hs
            · exact ⟨'-', head?_some_eq hs⟩
            · exact ⟨'+', head?_some_eq hs⟩
          obtain ⟨sc, h2⟩ := h2
          rw [h1, getLast?_cons_ne _ _ (by rw [h2]; simp), h2,
            getLast?_cons_ne _ _ ht2ne] at hc
          exact hdig c hc
      · rw [if_neg hsgn] at h
        by_cases hbad : ((r2.tail.takeWhile Char.isDigit).isEmpty ||
            !(r2.tail.dropWhile Char.isDigit).isEmpty) = true
        · rw [if_pos hbad] at h
          cases h
        · have hEd : (r2.tail.takeWhile Char.isDigit).isEmpty = false := by
            cases hx : (r2.tail.takeWhile Char.isDigit).isEmpty
            · rfl
            · exact absurd (by rw [hx]; rfl) hbad
          have hr3 : r2.tail.dropWhile Char.isDigit = [] := by
            cases hx : (r2.tail.dropWhile Char.isDigit).isEmpty
            · exfalso
              apply hbad
              rw [hEd, hx]
              rfl
            · exact List.isEmpty_iff.mp hx
          obtain ⟨ht2ne, hdig⟩ := all_digits_last _ hEd hr3
          have h1 : r2 = 'E' :: r2.tail := head?_some_eq hE
          rw [h1, getLast?_cons_ne _ _ ht2ne] at hc
          exact hdig c hc
    · simp only [hE, if_false] at h
      cases h

/-- A successfully parsed decimal number ends in a digit or a dot. -/
theorem parseDecimal_last (neg : Bool) (cs : List Char) (v : FVal) (c : Char)
    (h : parseDecimal neg cs = some v) (hc : cs.getLast? = some c) :
    c.isDigit = true ∨ c = '.' := by
  simp only [parseDecimal, splitDigits] at h
  by_cases hdot : (cs.dropWhile Char.isDigit).head? = some '.'
  · simp only [hdot, if_true, if_pos] at h
    by_cases hguard : ((cs.takeWhile Char.isDigit).isEmpty &&
        ((cs.dropWhile Char.isDigit).tail.takeWhile Char.isDigit).isEmpty) = true
    · rw [if_pos hguard] at h
      cases h
    · rw [if_neg hguard] at h
      cases hexp : parseExpPart ((cs.dropWhile Char.isDigit).tail.dropWhile Char.isDigit) with
      | none => rw [hexp] at h; cases h
      | some e =>
        have hr1 : cs.dropWhile Char.isDigit = '.' :: (cs.dropWhile Char.isDigit).tail :=
          head?_some_eq hdot
        rcases parseExpPart_last _ _ hexp with hr2nil | ⟨hr2ne, hdig⟩
        · have htl : (cs.dropWhile Char.isDigit).tail =
              (cs.dropWhile Char.isDigit).tail.takeWhile Char.isDigit := by
            conv_lhs => rw [← List.takeWhile_append_dropWhile (p := Char.isDigit)
              (l := (cs.dropWhile Char.isDigit).tail)]
            rw [hr2nil, List.append_nil]
          by_cases hfp : (cs.dropWhile Char.isDigit).tail = []
          · right
            have hcs : cs = cs.takeWhile Char.isDigit ++ ['.'] := by
              conv_lhs => rw [← List.takeWhile_append_dropWhile (p := Char.isDigit) (l := cs)]
              rw [hr1, hfp]
            rw [hcs, List.getLast?_concat] at hc
            exact (Option.some_inj.mp hc).symm
          · left
            have hcs : cs = cs.takeWhile Char.isDigit ++
                ('.' :: (cs.dropWhile Char.isDigit).tail) := by
              conv_lhs => rw [← List.takeWhile_append_dropWhile (p := Char.isDigit) (l := cs)]
              rw [hr1]
              rfl
            rw [hcs, getLast?_append_ne _ _ (by simp), getLast?_cons_ne _ _ hfp] at hc
            have hmem : c ∈ (cs.dropWhile Char.isDigit).tail := getLastMemChar hc
            rw [htl] at hmem
            exact List.mem_takeWhile_imp hmem
        · left
          have htl : (cs.dropWhile Char.isDigit).tail =
              (cs.dropWhile Char.isDigit).tail.takeWhile Char.isDigit ++
              (cs.dropWhile Char.isDigit).tail.dropWhile Char.isDigit :=
            (List.takeWhile_append_dropWhile _ _).symm
          have hcs : cs = (cs.takeWhile Char.isDigit ++
              '.' :: (cs.dropWhile Char.isDigit).tail.takeWhile Char.isDigit) ++
              (cs.dropWhile Char.isDigit).tail.dropWhile Char.isDigit := by
            conv_lhs => rw [← List.takeWhile_append_dropWhile (p := Char.isDigit) (l := cs)]
            rw [hr1]
            conv_lhs => rw [htl]
            simp
          rw [hcs, getLast?_append_ne _ _ hr2ne] at hc
          exact hdig c hc
  · simp only [hdot, if_false] at h
    by_cases hguard : ((cs.takeWhile Char.isDigit).isEmpty && ([] : List Char).isEmpty) = true
    · rw [if_pos hguard] at h
      cases h
    · rw [if_neg hguard] at h
      cases hexp : parseExpPart (cs.dropWhile Char.isDigit) with
      | none => rw [hexp] at h; cases h
      | some e =>
        left
        rcases parseExpPart_last _ _ hexp with hr2nil | ⟨hr2ne, hdig⟩
        · have hcs : cs = cs.takeWhile Char.isDigit := by
            conv_lhs => rw [← List.takeWhile_append_dropWhile (p := Char.isDigit) (l := cs)]
            rw [hr2nil, List.append_nil]
          have hmem : c ∈ cs := getLastMemChar hc
          rw [hcs] at hmem
          exact List.mem_takeWhile_imp hmem
        · have hcs : cs = cs.takeWhile Char.isDigit ++ cs.dropWhile Char.isDigit :=
            (List.takeWhile_append_dropWhile _ _).symm
          rw [hcs, getLast?_append_ne _ _ hr2ne] at hc
          exact hdig c hc

/-- A string ending in a unit letter K/M/G/T is not a number. -/
theorem parseF64_none_of_last (cs : List Char) (c : Char)
    (hc : cs.getLast? = some c)
    (hK : c = 'K' ∨ c = 'M' ∨ c = 'G' ∨ c = 'T') :
    parseF64 cs = none := by
  cases hp : parseF64 cs with
  | none => rfl
  | some v =>
    exfalso
    have hne : c.isDigit = true ∨ c = '.' → False := by
      rintro (hd | hd) <;> rcases hK with h | h | h | h <;> subst h <;> simp_all
    have hlit : ∀ rest : List Char, rest.getLast? = some c →
        (rest = "INF".data ∨ rest = "INFINITY".data) ∨ rest = "NAN".data → False := by
      rintro rest hrest ((h | h) | h) <;> rw [h] at hrest <;>
        rcases hK with hk | hk | hk | hk <;> subst hk <;>
        simp only [show ("INF".data : List Char).getLast? = some 'F' from rfl,
          show ("INFINITY".data : List Char).getLast? = some 'Y' from rfl,
          show ("NAN".data : List Char).getLast? = some 'N' from rfl,
          Option.some_inj] at hrest <;> cases hrest
    simp only [parseF64] at hp
    by_cases hsgn : (cs.head? = some '-' ∨ cs.head? = some '+')
    · rw [if_pos hsgn] at hp
      by_cases htl : cs.tail = []
      · rw [htl] at hp
        simp [parseDecimal, splitDigits, parseExpPart] at hp
      · have hlast2 : cs.tail.getLast? = some c := by
          have hcs : ∃ s0, cs = s0 :: cs.tail := by
            rcases hsgn with h | h
            · exact ⟨'-', head?_some_eq h⟩
            · exact ⟨'+', head?_some_eq h⟩
          obtain ⟨s0, hcs⟩ := hcs
          rw [hcs, getLast?_cons_ne _ _ htl] at hc
          exact hc
        by_cases hI : (cs.tail = "INF".data ∨ cs.tail = "INFINITY".data)
        · exact hlit _ hlast2 (Or.inl hI)
        · rw [if_neg hI] at hp
          by_cases hN : cs.tail = "NAN".data
          · exact hlit _ hlast2 (Or.inr hN)
          · rw [if_neg hN] at hp
            exact hne (parseDecimal_last _ _ _ _ hp hlast2)
    · rw [if_neg hsgn] at hp
      by_cases hI : (cs = "INF".data ∨ cs = "INFINITY".data)
      · exact hlit _ hc (Or.inl hI)
      · rw [if_neg hI] at hp
        by_cases hN : cs = "NAN".data
        · exact hlit _ hc (Or.inr hN)
        · rw [if_neg hN] at hp
          exact hne (parseDecimal_last _ _ _ _ hp hc)

/-- Executable prefix test decomposed. -/
theorem hasPrefixChars_iff (p l : List Char) :
    hasPrefixChars p l = true ↔ ∃ t, l = p ++ t := by
  induction p generalizing l with
  | nil =>
    simp only [hasPrefixChars, List.nil_append]
    exact ⟨fun _ => ⟨l, rfl⟩, fun _ => trivial⟩
  | cons a p ih =>
    cases l with
    | nil =>
      simp only [hasPrefixChars]
      constructor
      · intro h
        cases h
      · rintro ⟨t, ht⟩
        cases ht
    | cons b l2 =>
      simp only [hasPrefixChars, Bool.and_eq_true, decide_eq_true_eq, ih, List.cons_append]
      constructor
      · rintro ⟨hab, t, ht⟩
        subst hab
        exact ⟨t, by rw [ht]⟩
      · rintro ⟨t, ht⟩
        injection ht with h1 h2
        exact ⟨h1.symm, t, h2⟩

/-- Executable suffix test decomposed. -/
theorem endsWithChars_iff (suf l : List Char) :
    endsWithChars suf l = true ↔ ∃ pre, l = pre ++ suf := by
  unfold endsWithChars
  rw [hasPrefixChars_iff]
  constructor
  · rintro ⟨t, ht⟩
    refine ⟨t.reverse, ?_⟩
    have h2 := congrArg List.reverse ht
    simpa [List.reverse_append] using h2
  · rintro ⟨pre, hp⟩
    exact ⟨pre.reverse, by rw [hp]; simp [List.reverse_append]⟩

/-- Two-character suffixes with different first characters exclude each
other. -/
theorem endsWithChars_pair_false (pre : List Char) (a b a2 b2 : Char)
    (h : a2 ≠ a) :
    endsWithChars [a2, b2] (pre ++ [a, b]) = false := by
  cases hE : endsWithChars [a2, b2] (pre ++ [a, b]) with
  | false => rfl
  | true =>
    exfalso
    obtain ⟨pre2, hp⟩ := (endsWithChars_iff _ _).mp hE
    have h2 := congrArg List.reverse hp
    simp [List.reverse_append] at h2
    exact h h2.2.1.symm

/-- A two-character suffix extends to its final character. -/
theorem endsWithChars_extend (a b : Char) (cs : List Char)
    (h : endsWithChars [a, b] cs = true) : endsWithChars [b] cs = true := by
  obtain ⟨pre, hp⟩ := (endsWithChars_iff _ _).mp h
  refine (endsWithChars_iff _ _).mpr ⟨pre ++ [a], ?_⟩
  rw [hp]
  simp

/-- Taking all but the final element of a two-character suffix. -/
theorem take_pred_pair (pre : List Char) (a b : Char) :
    (pre ++ [a, b]).take ((pre ++ [a, b]).length - 1) = pre ++ [a] := by
  rw [show pre ++ [a, b] = (pre ++ [a]) ++ [b] from by simp]
  rw [show ((pre ++ [a]) ++ [b]).length - 1 = (pre ++ [a]).length from by simp]
  exact List.take_left _ _

/-- `parse_size` succeeds exactly when the suffix dispatch recognizes a
unit and the magnitude before it parses as a number. -/
theorem parse_size_ok_shape (s : String) :
    (∃ n, parse_size s = Except.ok n) ↔
    (∃ numCs mult, suffixUnit (upperChars (trimChars s.data)) = some (numCs, mult) ∧
       (parseF64 (trimChars numCs)).isSome = true) := by
  unfold parse_size
  cases hsu : suffixUnit (upperChars (trimChars s.data)) with
  | none => simp [hsu]
  | some p =>
    rcases p with ⟨numCs, mult⟩
    cases hp : parseF64 (trimChars numCs) with
    | none => simp [hsu, hp]
    | some v => simp [hsu, hp]

/-- A magnitude slice ending in a unit letter is never numeric. -/
theorem bdis_false (cs pre : List Char) (u : Char) (hpre : cs = pre ++ [u, 'B'])
    (hu : u = 'K' ∨ u = 'M' ∨ u = 'G' ∨ u = 'T') :
    (parseF64 (trimChars (cs.take (cs.length - 1)))).isSome = false := by
  rw [hpre, take_pred_pair]
  have h2 : (pre ++ [u]).getLast? = some u := List.getLast?_concat _
  have hws : u.isWhitespace = false := by
    rcases hu with h | h | h | h <;> subst h <;> rfl
  rw [parseF64_none_of_last _ _ (trimChars_getLast _ _ h2 hws) hu]
  rfl

/-- Success of `parse_size` coincides with the spec-side form: a
recognized case-insensitive unit suffix with a numeric magnitude. -/
theorem parse_size_ok_iff (s : String) :
    (∃ n, parse_size s = Except.ok n) ↔ sizeSpecOk s = true := by
  rw [parse_size_ok_shape]
  simp only [sizeSpecOk]
  generalize upperChars (trimChars s.data) = cs
  by_cases hB : endsWithChars "B".data cs = true
  · by_cases hKB : endsWithChars "KB".data cs = true
    · obtain ⟨pre, hpre⟩ := (endsWithChars_iff "KB".data cs).mp hKB
      have hMBf : endsWithChars "MB".data cs = false := by
        rw [hpre]
        exact endsWithChars_pair_false pre 'K' 'B' 'M' 'B' (by decide)
      have hGBf : endsWithChars "GB".data cs = false := by
        rw [hpre]
        exact endsWithChars_pair_false pre 'K' 'B' 'G' 'B' (by decide)
      have hTBf : endsWithChars "TB".data cs = false := by
        rw [hpre]
        exact endsWithChars_pair_false pre 'K' 'B' 'T' 'B' (by decide)
      have hsu : suffixUnit cs = some (cs.take (cs.length - 2), 1024) := by
        simp [suffixUnit, hB, hKB]
      have hbd := bdis_false cs pre 'K' hpre (Or.inl rfl)
      simp [hsu, hKB, hMBf, hGBf, hTBf, hB, hbd]
    · by_cases hMB : endsWithChars "MB".data cs = true
      · obtain ⟨pre, hpre⟩ := (endsWithChars_iff "MB".data cs).mp hMB
        have hGBf : endsWithChars "GB".data cs = false := by
          rw [hpre]
          exact endsWithChars_pair_false pre 'M' 'B' 'G' 'B' (by decide)
        have hTBf : endsWithChars "TB".data cs = false := by
          rw [hpre]
          exact endsWithChars_pair_false pre 'M' 'B' 'T' 'B' (by decide)
        have hsu : suffixUnit cs = some (cs.take (cs.length - 2), 1024 * 1024) := by
          simp [suffixUnit, hB, hKB, hMB]
        have hbd := bdis_false cs pre 'M' hpre (Or.inr (Or.inl rfl))
        simp [hsu, hKB, hMB, hGBf, hTBf, hB, hbd]
      · by_cases hGB : endsWithChars "GB".data cs = true
        · obtain ⟨pre, hpre⟩ := (endsWithChars_iff "GB".data cs).mp hGB
          have hTBf : endsWithChars "TB".data cs = false := by
            rw [hpre]
            exact endsWithChars_pair_false pre 'G' 'B' 'T' 'B' (by decide)
          have hsu : suffixUnit cs =
              some (cs.take (cs.length - 2), 1024 * 1024 * 1024) := by
            simp [suffixUnit, hB, hKB, hMB, hGB]
          have hbd := bdis_false cs pre 'G' hpre (Or.inr (Or.inr (Or.inl rfl)))
          simp [hsu, hKB, hMB, hGB, hTBf, hB, hbd]
        · by_cases hTB : endsWithChars "TB".data cs = true
          · obtain ⟨pre, hpre⟩ := (endsWithChars_iff "TB".data cs).mp hTB
            have hsu : suffixUnit cs =
                some (cs.take (cs.length - 2), 1024 * 1024 * 1024 * 1024) := by
              simp [suffixUnit, hB, hKB, hMB, hGB, hTB]
            have hbd := bdis_false cs pre 'T' hpre (Or.inr (Or.inr (Or.inr rfl)))
            simp [hsu, hKB, hMB, hGB, hTB, hB, hbd]
          · have hsu : suffixUnit cs = some (cs.take (cs.length - 1), 1) := by
              simp [suffixUnit, hB, hKB, hMB, hGB, hTB]
            simp [hsu, hKB, hMB, hGB, hTB, hB]
  · have hKBf : endsWithChars "KB".data cs = false := by
      cases h : endsWithChars "KB".data cs
      · rfl
      · exact absurd (endsWithChars_extend 'K' 'B' cs h) hB
    have hMBf : endsWithChars "MB".data cs = false := by
      cases h : endsWithChars "MB".data cs
      · rfl
      · exact absurd (endsWithChars_extend 'M' 'B' cs h) hB
    have hGBf : endsWithChars "GB".data cs = false := by
      cases h : endsWithChars "GB".data cs
      · rfl
      · exact absurd (endsWithChars_extend 'G' 'B' cs h) hB
    have hTBf : endsWithChars "TB".data cs = false := by
      cases h : endsWithChars "TB".data cs
      · rfl
      · exact absurd (endsWithChars_extend 'T' 'B' cs h) hB
    have hsu : suffixUnit cs = none := by
      simp [suffixUnit, hB]
    simp [hsu, hKBf, hMBf, hGBf, hTBf, hB]

/-- C9: parsing a size string succeeds exactly on a (trimmed,
case-insensitive) numeric magnitude followed by a unit in
{B, KB, MB, GB, TB}; the multipliers are binary, 1024-based; a missing
unit suffix or a non-numeric magnitude yields a format error. -/
theorem parse_size_spec :
    (∀ s, (∃ n, parse_size s = Except.ok n) ↔ sizeSpecOk s = true) ∧
    parse_size "100B" = Except.ok 100 ∧
    parse_size "1KB" = Except.ok 1024 ∧
    parse_size "1MB" = Except.ok 1048576 ∧
    parse_size "1GB" = Except.ok 1073741824 ∧
    parse_size "1TB" = Except.ok 1099511627776 ∧
    parse_size "1.5MB" = Except.ok 1572864 ∧
    parse_size "1kb" = Except.ok 1024 ∧
    (∃ e, parse_size "invalid" = Except.error e) ∧
    (∃ e, parse_size "123" = Except.error e) :=
  ⟨parse_size_ok_iff, rfl, rfl, rfl, rfl, rfl, rfl, rfl,
    ⟨"Invalid size format: expected format like 100MB or 1GB", rfl⟩,
    ⟨"Invalid size format: expected format like 100MB or 1GB", rfl⟩⟩

/-- Witness instantiating the success criterion of `parse_size_spec` at
a concrete accepted and a concrete rejected string. -/
theorem parse_size_spec_witness :
    ((∃ n, parse_size "2kb" = Except.ok n) ↔ sizeSpecOk "2kb" = true) ∧
    ((∃ n, parse_size "2qb" = Except.ok n) ↔ sizeSpecOk "2qb" = true) :=
  ⟨parse_size_spec.1 "2kb", parse_size_spec.1 "2qb"⟩
